import Mathlib

/-
  Verification development for the restaurant synchronization program
  (semSharedMemGroup.c, semSharedMemReceptionist.c, semSharedMemWaiter.c).

  The shared state and the receptionist's private state are embedded as a
  Lean structure; each operation of the C sources becomes a Lean function
  returning both the updated state and the ordered list of observable
  events (semaphore operations, status writes, state persistence) that the
  C function performs, in the order the C code performs them.
-/

namespace Restaurant

/-! ## Constants and enumerations -/

/-- Constant TOARRIVE for the receptionist's private groupRecord
    (semSharedMemReceptionist.c line 46). -/
def TOARRIVE : Nat := 0

/-- Constant WAIT for groupRecord (semSharedMemReceptionist.c line 47). -/
def WAIT : Nat := 1

/-- Constant ATTABLE for groupRecord (semSharedMemReceptionist.c line 48). -/
def ATTABLE : Nat := 2

/-- Constant DONE for groupRecord (semSharedMemReceptionist.c line 49). -/
def DONE : Nat := 3

/-- Group status values written to sh->fSt.st.groupStat.  GOING and WAITING
    are Modelled from the spec (the enum header is not among the three
    source files): GOING is the initial status set by the external
    initializer, WAITING is the queued-for-a-table status named by the
    spec lifecycle; neither identifier occurs in the three source files. -/
inductive GroupStatus where
  | GOING
  | ATRECEPTION
  | WAITING
  | FOOD_REQUEST
  | WAIT_FOR_FOOD
  | EAT
  | CHECKOUT
  | LEAVING
deriving DecidableEq, Repr

/-- Receptionist status values written to sh->fSt.st.receptionistStat. -/
inductive ReceptionistStatus where
  | WAIT_FOR_REQUEST
  | ASSIGNTABLE
  | RECVPAY
deriving DecidableEq, Repr

/-- Waiter status values written to sh->fSt.st.waiterStat. -/
inductive WaiterStatus where
  | WAIT_FOR_REQUEST
  | INFORM_CHEF
  | TAKE_TO_TABLE
deriving DecidableEq, Repr

/-- Request kinds carried in the request struct (TABLEREQ, BILLREQ posted
    to the receptionist; FOODREQ, FOODREADY posted to the waiter). -/
inductive ReqKind where
  | TABLEREQ
  | BILLREQ
  | FOODREQ
  | FOODREADY
deriving DecidableEq, Repr

/-- The request record { reqType, reqGroup } exchanged through the
    single-slot mailboxes. -/
structure Request where
  reqType : ReqKind
  reqGroup : Nat
deriving DecidableEq, Repr

/-! ## Semaphores and observable events -/

/-- The semaphores of the shared region, as referenced in the sources. -/
inductive Sem where
  | mutex
  | receptionistReq
  | receptionistRequestPossible
  | waiterRequestSem
  | waiterRequestPossible
  | waitForTable (g : Nat)
  | requestReceived (t : Int)
  | foodArrived (t : Int)
  | tableDone (t : Int)
  | waitOrder
  | orderReceived
deriving DecidableEq, Repr

/-- One observable action of a C function, in source order: a semaphore
    operation, a status write, a saveState call, a mailbox write, or a
    read/write of the seating bookkeeping. -/
inductive Event where
  | semDown (s : Sem)
  | semUp (s : Sem)
  | setGroupStat (g : Nat) (st : GroupStatus)
  | setRecepStat (st : ReceptionistStatus)
  | setWaiterStat (st : WaiterStatus)
  | saveState
  | writeRecepMailbox (r : Request)
  | writeWaiterMailbox (r : Request)
  | writeChefMailbox (g : Nat)
  | readAssignedTable (g : Nat)
  | setAssignedTable (g : Nat) (v : Int)
  | setGroupRecord (g : Nat) (v : Nat)
  | incGroupsWaiting
  | decGroupsWaiting
deriving DecidableEq, Repr

/-! ## Receptionist state -/

/-- The part of the shared state the receptionist operations read and
    write, together with the receptionist's private groupRecord array.
    nGroups and numTables are fixed at initialization. -/
structure RecState where
  nGroups : Nat
  numTables : Nat
  assignedTable : List Int
  groupsWaiting : Int
  groupRecord : List Nat
deriving DecidableEq, Repr

/-- Initial receptionist-visible state: groupRecord is initialized to
    TOARRIVE by the receptionist's main (semSharedMemReceptionist.c lines
    110-113); assignedTable all -1 and groupsWaiting 0 are Modelled from
    the spec (the external initializer is not among the source files:
    every group starts unseated, nobody queued). -/
def initState (n tables : Nat) : RecState :=
  { nGroups := n
    numTables := tables
    assignedTable := List.replicate n (-1)
    groupsWaiting := 0
    groupRecord := List.replicate n TOARRIVE }

/-- The table scan of decideTableOrWait (semSharedMemReceptionist.c lines
    154-163): for table = t, t+1, ..., numTables-1, if some group's
    assignedTable equals the table, try the next table, else return the
    table; return -1 when the scan runs out. -/
def scanFreeTable (assigned : List Int) (numTables : Nat) (t : Nat) : Int :=
  if t < numTables then
    if assigned.any (fun a => a == (t : Int)) then
      scanFreeTable assigned numTables (t + 1)
    else (t : Int)
  else -1
termination_by numTables - t

/-- decideTableOrWait (semSharedMemReceptionist.c lines 149-165), minus the
    entry assertion which is modelled separately as decideAssertOk: scan
    tables from 0 for the first one no group occupies. -/
def decideTableOrWait (s : RecState) : Int :=
  scanFreeTable s.assignedTable s.numTables 0

/-- The assertion groupRecord[group_id] < 2 at the entry of
    decideTableOrWait (semSharedMemReceptionist.c line 150). -/
def decideAssertOk (s : RecState) (g : Nat) : Prop :=
  s.groupRecord.getD g DONE < 2

/-- The group scan of decideNextGroup (semSharedMemReceptionist.c lines
    181-185): first group id with groupRecord WAIT, else -1. -/
def scanWaitGroup (record : List Nat) (n : Nat) (g : Nat) : Int :=
  if g < n then
    if record.getD g TOARRIVE == WAIT then (g : Int)
    else scanWaitGroup record n (g + 1)
  else -1
termination_by n - g

/-- decideNextGroup (semSharedMemReceptionist.c lines 176-187): -1 when
    groupsWaiting <= 0, else the lowest group id whose record is WAIT. -/
def decideNextGroup (s : RecState) : Int :=
  if s.groupsWaiting ≤ 0 then -1
  else scanWaitGroup s.groupRecord s.nGroups 0

/-- provideTableOrWaitingRoom (semSharedMemReceptionist.c lines 258-290):
    under the mutex, set receptionist status ASSIGNTABLE, persist, run
    decideTableOrWait; if it returns -1, increment groupsWaiting and mark
    the group's record WAIT (no signal); else mark the record ATTABLE, set
    assignedTable[group] and signal waitForTable[group], all before the
    mutex release.  Returns the updated state and the event list in the
    order the C function performs the actions. -/
def provideTableOrWaitingRoom (s : RecState) (g : Nat) : RecState × List Event :=
  let table_id := decideTableOrWait s
  if table_id < 0 then
    ({ s with groupsWaiting := s.groupsWaiting + 1
              groupRecord := s.groupRecord.set g WAIT },
     [Event.semDown Sem.mutex,
      Event.setRecepStat ReceptionistStatus.ASSIGNTABLE,
      Event.saveState,
      Event.incGroupsWaiting,
      Event.setGroupRecord g WAIT,
      Event.semUp Sem.mutex])
  else
    ({ s with groupRecord := s.groupRecord.set g ATTABLE
              assignedTable := s.assignedTable.set g table_id },
     [Event.semDown Sem.mutex,
      Event.setRecepStat ReceptionistStatus.ASSIGNTABLE,
      Event.saveState,
      Event.setGroupRecord g ATTABLE,
      Event.setAssignedTable g table_id,
      Event.semUp (Sem.waitForTable g),
      Event.semUp Sem.mutex])

/-- receivePayment (semSharedMemReceptionist.c lines 302-339): under the
    mutex, set receptionist status RECVPAY, persist, mark the paying
    group's record DONE, capture its table, clear its assignedTable entry;
    if groupsWaiting > 0 and decideNextGroup finds a waiting group, mark
    that group ATTABLE, signal its waitForTable semaphore, decrement
    groupsWaiting and hand it the vacated table; release the mutex and
    only then signal tableDone for the vacated table. -/
def receivePayment (s : RecState) (g : Nat) : RecState × List Event :=
  let table_id := s.assignedTable.getD g (-1)
  let s1 : RecState :=
    { s with groupRecord := s.groupRecord.set g DONE
             assignedTable := s.assignedTable.set g (-1) }
  let pre : List Event :=
    [Event.semDown Sem.mutex,
     Event.setRecepStat ReceptionistStatus.RECVPAY,
     Event.saveState,
     Event.setGroupRecord g DONE,
     Event.readAssignedTable g,
     Event.setAssignedTable g (-1)]
  if s1.groupsWaiting > 0 then
    let ng := decideNextGroup s1
    if ng > -1 then
      let g2 := ng.toNat
      ({ s1 with groupRecord := s1.groupRecord.set g2 ATTABLE
                 groupsWaiting := s1.groupsWaiting - 1
                 assignedTable := s1.assignedTable.set g2 table_id },
       pre ++
       [Event.setGroupRecord g2 ATTABLE,
        Event.semUp (Sem.waitForTable g2),
        Event.decGroupsWaiting,
        Event.setAssignedTable g2 table_id,
        Event.semUp Sem.mutex,
        Event.semUp (Sem.tableDone table_id)])
    else
      (s1, pre ++ [Event.semUp Sem.mutex, Event.semUp (Sem.tableDone table_id)])
  else
    (s1, pre ++ [Event.semUp Sem.mutex, Event.semUp (Sem.tableDone table_id)])

/-- One iteration body of the receptionist's main loop
    (semSharedMemReceptionist.c lines 118-129): dispatch on the request
    kind; request kinds without a case leave the state unchanged. -/
def receptionistStep (s : RecState) (r : Request) : RecState :=
  match r.reqType with
  | ReqKind.TABLEREQ => (provideTableOrWaitingRoom s r.reqGroup).1
  | ReqKind.BILLREQ => (receivePayment s r.reqGroup).1
  | _ => s

/-- Folding the receptionist step over a list of dispatched requests. -/
def processRequests (s : RecState) : List Request → RecState
  | [] => s
  | r :: rs => processRequests (receptionistStep s r) rs

/-- The receptionist's main while-loop (semSharedMemReceptionist.c lines
    116-129): while nReq < nGroups * 2, serve the next request and
    increment nReq.  The request source is a stream (waitForGroup blocks
    until a request is available, so each iteration yields one request);
    the function returns the final state and the list of served requests. -/
def recepLoop (n : Nat) (reqs : Nat → Request) (s : RecState) (nReq : Nat) :
    RecState × Nat :=
  if nReq < n * 2 then
    recepLoop n reqs (receptionistStep s (reqs nReq)) (nReq + 1)
  else (s, nReq)
termination_by n * 2 - nReq

/-- The receptionist's main starting at nReq = 0, with the loop bound read
    from the (constant) nGroups field; the second component is the final
    value of the served-request counter nReq. -/
def receptionistMain (s : RecState) (reqs : Nat → Request) : RecState × Nat :=
  recepLoop s.nGroups reqs s 0

/-! ## Group actor event traces

    The group functions only write that group's own groupStat entry and
    read its assignedTable entry, so each is embedded as its ordered event
    trace; t is the table id the function reads from assignedTable. -/

/-- checkInAtReception (semSharedMemGroup.c lines 185-230): acquire the
    receptionist availability permit; under the mutex set status
    ATRECEPTION, persist, post { TABLEREQ, groupId } to the receptionist
    mailbox, signal the request-posted semaphore, release the mutex; then
    block on the group's waitForTable semaphore. -/
def checkInAtReception (g : Nat) : List Event :=
  [Event.semDown Sem.receptionistRequestPossible,
   Event.semDown Sem.mutex,
   Event.setGroupStat g GroupStatus.ATRECEPTION,
   Event.saveState,
   Event.writeRecepMailbox { reqType := ReqKind.TABLEREQ, reqGroup := g },
   Event.semUp Sem.receptionistReq,
   Event.semUp Sem.mutex,
   Event.semDown (Sem.waitForTable g)]

/-- orderFood (semSharedMemGroup.c lines 242-288): acquire the waiter
    availability permit; under the mutex, first post { FOODREQ, groupId }
    to the waiter mailbox and signal the request-posted semaphore, then
    set status FOOD_REQUEST and persist, then read the assigned table,
    release the mutex; block on that table's requestReceived semaphore. -/
def orderFood (g : Nat) (t : Int) : List Event :=
  [Event.semDown Sem.waiterRequestPossible,
   Event.semDown Sem.mutex,
   Event.writeWaiterMailbox { reqType := ReqKind.FOODREQ, reqGroup := g },
   Event.semUp Sem.waiterRequestSem,
   Event.setGroupStat g GroupStatus.FOOD_REQUEST,
   Event.saveState,
   Event.readAssignedTable g,
   Event.semUp Sem.mutex,
   Event.semDown (Sem.requestReceived t)]

/-- waitFood (semSharedMemGroup.c lines 299-339): under the mutex set
    status WAIT_FOR_FOOD, persist, read the table, release; block on that
    table's foodArrived semaphore; under the mutex again set status EAT,
    persist, release. -/
def waitFood (g : Nat) (t : Int) : List Event :=
  [Event.semDown Sem.mutex,
   Event.setGroupStat g GroupStatus.WAIT_FOR_FOOD,
   Event.saveState,
   Event.readAssignedTable g,
   Event.semUp Sem.mutex,
   Event.semDown (Sem.foodArrived t),
   Event.semDown Sem.mutex,
   Event.setGroupStat g GroupStatus.EAT,
   Event.saveState,
   Event.semUp Sem.mutex]

/-- checkOutAtReception (semSharedMemGroup.c lines 352-411): acquire the
    receptionist availability permit; under the mutex set status CHECKOUT,
    persist, read the table, post { BILLREQ, groupId }, signal the
    request-posted semaphore, release; block on that table's tableDone
    semaphore; under the mutex set status LEAVING, persist, release. -/
def checkOutAtReception (g : Nat) (t : Int) : List Event :=
  [Event.semDown Sem.receptionistRequestPossible,
   Event.semDown Sem.mutex,
   Event.setGroupStat g GroupStatus.CHECKOUT,
   Event.saveState,
   Event.readAssignedTable g,
   Event.writeRecepMailbox { reqType := ReqKind.BILLREQ, reqGroup := g },
   Event.semUp Sem.receptionistReq,
   Event.semUp Sem.mutex,
   Event.semDown (Sem.tableDone t),
   Event.semDown Sem.mutex,
   Event.setGroupStat g GroupStatus.LEAVING,
   Event.saveState,
   Event.semUp Sem.mutex]

/-- The full lifecycle of group g as called from the group's main
    (semSharedMemGroup.c lines 106-111); goToRestaurant and eat are pure
    delays with no shared-state events. -/
def groupLifecycle (g : Nat) (t : Int) : List Event :=
  checkInAtReception g ++ orderFood g t ++ waitFood g t ++ checkOutAtReception g t

/-- The sequence of group-status writes contained in an event trace. -/
def statusWrites (l : List Event) : List GroupStatus :=
  l.filterMap (fun e =>
    match e with
    | Event.setGroupStat _ st => some st
    | _ => none)

/-! ## Waiter actor -/

/-- informChef (semSharedMemWaiter.c lines 195-234): under the mutex set
    waiter status INFORM_CHEF, persist, post the order to the chef
    mailbox, read the group's table, release the mutex; signal that
    table's requestReceived semaphore, signal waitOrder toward the chef,
    then block on orderReceived. -/
def informChef (g : Nat) (t : Int) : List Event :=
  [Event.semDown Sem.mutex,
   Event.setWaiterStat WaiterStatus.INFORM_CHEF,
   Event.saveState,
   Event.writeChefMailbox g,
   Event.readAssignedTable g,
   Event.semUp Sem.mutex,
   Event.semUp (Sem.requestReceived t),
   Event.semUp Sem.waitOrder,
   Event.semDown Sem.orderReceived]

/-- takeFoodToTable (semSharedMemWaiter.c lines 245-269): under the mutex
    set waiter status TAKE_TO_TABLE, persist, read the group's table,
    signal that table's foodArrived semaphore, and then release the
    mutex (the signal is performed before the mutex release). -/
def takeFoodToTable (g : Nat) (t : Int) : List Event :=
  [Event.semDown Sem.mutex,
   Event.setWaiterStat WaiterStatus.TAKE_TO_TABLE,
   Event.saveState,
   Event.readAssignedTable g,
   Event.semUp (Sem.foodArrived t),
   Event.semUp Sem.mutex]

/-- One iteration body of the waiter's main loop (semSharedMemWaiter.c
    lines 102-113): dispatch on the request kind; kinds without a case do
    nothing; t is the table id read from assignedTable for the request's
    group. -/
def waiterServe (r : Request) (t : Int) : List Event :=
  match r.reqType with
  | ReqKind.FOODREQ => informChef r.reqGroup t
  | ReqKind.FOODREADY => takeFoodToTable r.reqGroup t
  | _ => []

/-- The waiter's main while-loop (semSharedMemWaiter.c lines 100-113):
    while nReq < nGroups * 2, serve the next request and increment nReq;
    returns the list of event traces of the served requests. -/
def waiterLoop (n : Nat) (reqs : Nat → Request) (tables : Nat → Int) (nReq : Nat) :
    List (List Event) :=
  if nReq < n * 2 then
    waiterServe (reqs nReq) (tables nReq) :: waiterLoop n reqs tables (nReq + 1)
  else []
termination_by n * 2 - nReq

/-- The waiter's main starting at nReq = 0. -/
def waiterMain (n : Nat) (reqs : Nat → Request) (tables : Nat → Int) :
    List (List Event) :=
  waiterLoop n reqs tables 0

/-! ## Group process startup validation -/

/-- Result of the group main's startup phase (semSharedMemGroup.c lines
    60-100): either a configuration error with immediate failure exit
    before any protocol step, or entry into the protocol with the parsed
    group id. -/
inductive GroupStartup where
  | configError
  | runsProtocol (n : Int)
deriving DecidableEq, Repr

/-- The group main's command-line validation (semSharedMemGroup.c lines
    66-85): wrong argument count, malformed number, or n >= MAXGROUPS is
    rejected before any shared-state or semaphore access; every other id
    proceeds into the protocol.  MAXGROUPS is the compile-time bound from
    the missing probConst.h header, kept as a parameter; argcOk and
    parseOk abstract the argc test and the strtol end-pointer tests. -/
def groupStartup (maxGroups : Int) (argcOk parseOk : Bool) (n : Int) : GroupStartup :=
  if !argcOk then GroupStartup.configError
  else if !parseOk || n ≥ maxGroups then GroupStartup.configError
  else GroupStartup.runsProtocol n

/-! ## Helper lemmas on lists -/

theorem getD_set_ne {α : Type} (v d : α) :
    ∀ (l : List α) (i j : Nat), i ≠ j → (l.set i v).getD j d = l.getD j d := by
  intro l
  induction l with
  | nil => intro i j _; rfl
  | cons a t ih =>
    intro i j h
    cases i with
    | zero =>
      cases j with
      | zero => exact absurd rfl h
      | succ j => simp [List.set, List.getD]
    | succ i =>
      cases j with
      | zero => simp [List.set, List.getD]
      | succ j =>
        simp only [List.set, List.getD_cons_succ]
        exact ih i j (fun e => h (by rw [e]))

theorem getD_set_self {α : Type} (v d : α) :
    ∀ (l : List α) (i : Nat), i < l.length → (l.set i v).getD i d = v := by
  intro l
  induction l with
  | nil => intro i h; simp at h
  | cons a t ih =>
    intro i h
    cases i with
    | zero => rfl
    | succ i =>
      simp only [List.set, List.getD_cons_succ]
      exact ih i (by simpa using h)

theorem countP_set_add {α : Type} (p : α → Bool) (v d : α) :
    ∀ (l : List α) (i : Nat), i < l.length →
      (l.set i v).countP p + (if p (l.getD i d) then 1 else 0) =
        l.countP p + (if p v then 1 else 0) := by
  intro l
  induction l with
  | nil => intro i h; simp at h
  | cons a t ih =>
    intro i h
    cases i with
    | zero =>
      simp only [List.set, List.getD_cons_zero, List.countP_cons]
      omega
    | succ i =>
      simp only [List.set, List.getD_cons_succ, List.countP_cons]
      have := ih i (by simpa using h)
      omega

theorem countP_pos_getD {α : Type} (p : α → Bool) (d : α) (l : List α)
    (h : 0 < l.countP p) : ∃ i, i < l.length ∧ p (l.getD i d) = true := by
  rw [List.countP_pos_iff] at h
  obtain ⟨a, ha, hpa⟩ := h
  obtain ⟨i, hi, hget⟩ := List.mem_iff_getElem.mp ha
  refine ⟨i, hi, ?_⟩
  rw [List.getD_eq_getElem l d hi, hget]
  exact hpa

/-! ## Characterization of the table scan -/

theorem scanFreeTable_neg_iff (assigned : List Int) (numTables : Nat) :
    ∀ k t0, numTables - t0 ≤ k →
      (scanFreeTable assigned numTables t0 = -1 ↔
        ∀ t, t0 ≤ t → t < numTables →
          assigned.any (fun a => a == (t : Int)) = true) := by
  intro k
  induction k with
  | zero =>
    intro t0 hk
    rw [scanFreeTable]
    have hge : ¬ t0 < numTables := by omega
    rw [if_neg hge]
    constructor
    · intro _ t ht1 ht2; exfalso; omega
    · intro _; rfl
  | succ k ih =>
    intro t0 hk
    rw [scanFreeTable]
    by_cases h : t0 < numTables
    · rw [if_pos h]
      by_cases ha : assigned.any (fun a => a == (t0 : Int)) = true
      · rw [if_pos ha]
        rw [ih (t0 + 1) (by omega)]
        constructor
        · intro hall t ht1 ht2
          rcases Nat.lt_or_ge t0 t with hlt | hge
          · exact hall t hlt ht2
          · have : t = t0 := by omega
            rw [this]; exact ha
        · intro hall t ht1 ht2
          exact hall t (by omega) ht2
      · rw [if_neg ha]
        constructor
        · intro habs
          exfalso
          omega
        · intro hall
          exact absurd (hall t0 (Nat.le_refl _) h) ha
    · rw [if_neg h]
      constructor
      · intro _ t ht1 ht2; exfalso; omega
      · intro _; rfl

theorem scanFreeTable_found (assigned : List Int) (numTables : Nat) :
    ∀ k t0 r, numTables - t0 ≤ k →
      scanFreeTable assigned numTables t0 = r → 0 ≤ r →
      t0 ≤ r.toNat ∧ r.toNat < numTables ∧
      assigned.any (fun a => a == r) = false ∧
      ∀ j, t0 ≤ j → j < r.toNat →
        assigned.any (fun a => a == (j : Int)) = true := by
  intro k
  induction k with
  | zero =>
    intro t0 r hk heq hr
    rw [scanFreeTable] at heq
    have hge : ¬ t0 < numTables := by omega
    rw [if_neg hge] at heq
    omega
  | succ k ih =>
    intro t0 r hk heq hr
    rw [scanFreeTable] at heq
    by_cases h : t0 < numTables
    · rw [if_pos h] at heq
      by_cases ha : assigned.any (fun a => a == (t0 : Int)) = true
      · rw [if_pos ha] at heq
        obtain ⟨h1, h2, h3, h4⟩ := ih (t0 + 1) r (by omega) heq hr
        refine ⟨by omega, h2, h3, ?_⟩
        intro j hj1 hj2
        rcases Nat.lt_or_ge t0 j with hlt | hge2
        · exact h4 j hlt hj2
        · have : j = t0 := by omega
          rw [this]; exact ha
      · rw [if_neg ha] at heq
        subst heq
        refine ⟨by omega, by omega, ?_, ?_⟩
        · exact Bool.eq_false_iff.mpr (fun hx => ha hx)
        · intro j hj1 hj2
          exfalso
          omega
    · rw [if_neg h] at heq
      omega

/-! ## Characterization of the waiting-group scan -/

theorem scanWaitGroup_found (record : List Nat) (n : Nat) :
    ∀ k g0 r, n - g0 ≤ k →
      scanWaitGroup record n g0 = r → 0 ≤ r →
      g0 ≤ r.toNat ∧ r.toNat < n ∧ record.getD r.toNat TOARRIVE = WAIT ∧
      ∀ j, g0 ≤ j → j < r.toNat → record.getD j TOARRIVE ≠ WAIT := by
  intro k
  induction k with
  | zero =>
    intro g0 r hk heq hr
    rw [scanWaitGroup] at heq
    have hge : ¬ g0 < n := by omega
    rw [if_neg hge] at heq
    omega
  | succ k ih =>
    intro g0 r hk heq hr
    rw [scanWaitGroup] at heq
    by_cases h : g0 < n
    · rw [if_pos h] at heq
      by_cases ha : (record.getD g0 TOARRIVE == WAIT) = true
      · rw [if_pos ha] at heq
        subst heq
        refine ⟨by omega, by omega, by simpa using ha, ?_⟩
        intro j hj1 hj2
        exfalso
        omega
      · rw [if_neg ha] at heq
        obtain ⟨h1, h2, h3, h4⟩ := ih (g0 + 1) r (by omega) heq hr
        refine ⟨by omega, h2, h3, ?_⟩
        intro j hj1 hj2
        rcases Nat.lt_or_ge g0 j with hlt | hge2
        · exact h4 j hlt hj2
        · have : j = g0 := by omega
          rw [this]
          simpa using ha
    · rw [if_neg h] at heq
      omega

theorem scanWaitGroup_neg_iff (record : List Nat) (n : Nat) :
    ∀ k g0, n - g0 ≤ k →
      (scanWaitGroup record n g0 = -1 ↔
        ∀ g, g0 ≤ g → g < n → record.getD g TOARRIVE ≠ WAIT) := by
  intro k
  induction k with
  | zero =>
    intro g0 hk
    rw [scanWaitGroup]
    have hge : ¬ g0 < n := by omega
    rw [if_neg hge]
    constructor
    · intro _ g hg1 hg2; exfalso; omega
    · intro _; rfl
  | succ k ih =>
    intro g0 hk
    rw [scanWaitGroup]
    by_cases h : g0 < n
    · rw [if_pos h]
      by_cases ha : (record.getD g0 TOARRIVE == WAIT) = true
      · rw [if_pos ha]
        constructor
        · intro habs; exfalso; omega
        · intro hall
          exact absurd (by simpa using ha) (hall g0 (Nat.le_refl _) h)
      · rw [if_neg ha]
        rw [ih (g0 + 1) (by omega)]
        constructor
        · intro hall g hg1 hg2
          rcases Nat.lt_or_ge g0 g with hlt | hge2
          · exact hall g hlt hg2
          · have : g = g0 := by omega
            rw [this]
            simpa using ha
        · intro hall g hg1 hg2
          exact hall g (by omega) hg2
    · rw [if_neg h]
      constructor
      · intro _ g hg1 hg2; exfalso; omega
      · intro _; rfl

theorem any_beq_getD {l : List Int} {v : Int} (d : Int) :
    l.any (fun a => a == v) = true ↔ ∃ i, i < l.length ∧ l.getD i d = v := by
  rw [List.any_eq_true]
  constructor
  · rintro ⟨a, ha, hav⟩
    obtain ⟨i, hi, hget⟩ := List.mem_iff_getElem.mp ha
    exact ⟨i, hi, by rw [List.getD_eq_getElem l d hi, hget]; simpa using hav⟩
  · rintro ⟨i, hi, hv⟩
    refine ⟨l.getD i d, ?_, by simpa using hv⟩
    rw [List.getD_eq_getElem l d hi]
    exact List.getElem_mem hi

theorem scanWaitGroup_ge_neg (record : List Nat) (n : Nat) :
    ∀ k g0, n - g0 ≤ k → -1 ≤ scanWaitGroup record n g0 := by
  intro k
  induction k with
  | zero =>
    intro g0 hk
    rw [scanWaitGroup, if_neg (by omega : ¬ g0 < n)]
  | succ k ih =>
    intro g0 hk
    rw [scanWaitGroup]
    by_cases h : g0 < n
    · rw [if_pos h]
      by_cases ha : (record.getD g0 TOARRIVE == WAIT) = true
      · rw [if_pos ha]
        omega
      · rw [if_neg ha]
        exact ih (g0 + 1) (by omega)
    · rw [if_neg h]

theorem if_beq_false {a b : Nat} (h : (a == b) = false) :
    (if a == b then (1 : Nat) else 0) = 0 := by
  rw [h]
  rfl

theorem if_beq_true {a b : Nat} (h : (a == b) = true) :
    (if a == b then (1 : Nat) else 0) = 1 := by
  rw [h]
  rfl

/-! ## Ordering of events inside a trace -/

/-- Event a occurs strictly before event b in the trace l. -/
def precedesIn (l : List Event) (a b : Event) : Prop :=
  ∃ l1 l2 l3, l = l1 ++ a :: l2 ++ b :: l3

/-! ## Loop length lemmas -/

theorem recepLoop_count (n : Nat) (reqs : Nat → Request) :
    ∀ k s nReq, n * 2 - nReq ≤ k → nReq ≤ n * 2 →
      (recepLoop n reqs s nReq).2 = n * 2 := by
  intro k
  induction k with
  | zero =>
    intro s nReq hk hle
    rw [recepLoop]
    have hge : ¬ nReq < n * 2 := by omega
    rw [if_neg hge]
    omega
  | succ k ih =>
    intro s nReq hk hle
    rw [recepLoop]
    by_cases h : nReq < n * 2
    · rw [if_pos h]
      exact ih (receptionistStep s (reqs nReq)) (nReq + 1) (by omega) (by omega)
    · rw [if_neg h]
      omega

theorem waiterLoop_length (n : Nat) (reqs : Nat → Request) (tables : Nat → Int) :
    ∀ k nReq, n * 2 - nReq ≤ k →
      (waiterLoop n reqs tables nReq).length = n * 2 - nReq := by
  intro k
  induction k with
  | zero =>
    intro nReq hk
    rw [waiterLoop]
    have hge : ¬ nReq < n * 2 := by omega
    rw [if_neg hge]
    simp only [List.length_nil]
    omega
  | succ k ih =>
    intro nReq hk
    rw [waiterLoop]
    by_cases h : nReq < n * 2
    · rw [if_pos h]
      simp only [List.length_cons]
      rw [ih (nReq + 1) (by omega)]
      omega
    · rw [if_neg h]
      simp only [List.length_nil]
      omega

/-! ## Claim theorems -/

/-- C6: for every group count n, the receptionist's main loop serves
    exactly 2 × n requests and then terminates (its request counter nReq
    ends at exactly nGroups * 2), and the waiter's main loop serves
    exactly 2 × n requests and then terminates, whatever the stream of
    incoming requests. -/
theorem claim6_bounded_loops (s : RecState) (reqs reqs2 : Nat → Request)
    (tables : Nat → Int) (n : Nat) :
    (receptionistMain s reqs).2 = s.nGroups * 2 ∧
      (waiterMain n reqs2 tables).length = n * 2 := by
  constructor
  · exact recepLoop_count s.nGroups reqs (s.nGroups * 2) s 0 (by omega) (by omega)
  · have := waiterLoop_length n reqs2 tables (n * 2) 0 (by omega)
    simpa [waiterMain] using this

/-- C7 counterexample: in takeFoodToTable, the foodArrived signal for the
    table occurs at index 4 of the trace, strictly before the mutex
    release at index 5, so the claim that the signal happens only after
    the lock release is false (concrete instance: group 0, table 0). -/
theorem claim7_counterexample :
    (takeFoodToTable 0 0).indexOf (Event.semUp (Sem.foodArrived 0)) <
      (takeFoodToTable 0 0).indexOf (Event.semUp Sem.mutex) := by decide

/-- C7 (amended): when handling a FOOD_READY event for group g, the
    waiter, under the state lock, sets its status to TAKE_TO_TABLE,
    persists the state, reads g's assigned table id, then signals that
    table's food-arrived semaphore while still holding the lock, and only
    afterwards releases the lock. -/
theorem claim7_take_food_order (g : Nat) (t : Int) :
    precedesIn (takeFoodToTable g t) (Event.semDown Sem.mutex)
        (Event.setWaiterStat WaiterStatus.TAKE_TO_TABLE) ∧
    precedesIn (takeFoodToTable g t) (Event.setWaiterStat WaiterStatus.TAKE_TO_TABLE)
        Event.saveState ∧
    precedesIn (takeFoodToTable g t) Event.saveState (Event.readAssignedTable g) ∧
    precedesIn (takeFoodToTable g t) (Event.readAssignedTable g)
        (Event.semUp (Sem.foodArrived t)) ∧
    precedesIn (takeFoodToTable g t) (Event.semUp (Sem.foodArrived t))
        (Event.semUp Sem.mutex) := by
  exact ⟨⟨[], [],
      [Event.saveState, Event.readAssignedTable g,
       Event.semUp (Sem.foodArrived t), Event.semUp Sem.mutex], rfl⟩,
    ⟨[Event.semDown Sem.mutex], [],
      [Event.readAssignedTable g, Event.semUp (Sem.foodArrived t),
       Event.semUp Sem.mutex], rfl⟩,
    ⟨[Event.semDown Sem.mutex, Event.setWaiterStat WaiterStatus.TAKE_TO_TABLE], [],
      [Event.semUp (Sem.foodArrived t), Event.semUp Sem.mutex], rfl⟩,
    ⟨[Event.semDown Sem.mutex, Event.setWaiterStat WaiterStatus.TAKE_TO_TABLE,
      Event.saveState], [], [Event.semUp Sem.mutex], rfl⟩,
    ⟨[Event.semDown Sem.mutex, Event.setWaiterStat WaiterStatus.TAKE_TO_TABLE,
      Event.saveState, Event.readAssignedTable g], [], [], rfl⟩⟩

/-- C8 counterexample: in orderFood the waiter-mailbox write occurs at
    index 2 and the FOOD_REQUEST status write only at index 4, so the
    claim that the group first sets its status and persists before
    writing the mailbox is false (concrete instance: group 0, table 0). -/
theorem claim8_counterexample :
    (orderFood 0 0).indexOf
        (Event.writeWaiterMailbox { reqType := ReqKind.FOODREQ, reqGroup := 0 }) <
      (orderFood 0 0).indexOf (Event.setGroupStat 0 GroupStatus.FOOD_REQUEST) := by decide

/-- C8 (amended): in orderFood, after acquiring the waiter availability
    permit and the state lock, the group first writes { FOOD_REQUEST,
    groupId } into the waiter mailbox and signals "request posted", then
    sets its status to FOOD_REQUEST and persists the state, then reads
    its own assigned table id, and then releases the lock, before
    blocking on that table's order-received semaphore. -/
theorem claim8_order_food_order (g : Nat) (t : Int) :
    precedesIn (orderFood g t) (Event.semDown Sem.waiterRequestPossible)
        (Event.semDown Sem.mutex) ∧
    precedesIn (orderFood g t) (Event.semDown Sem.mutex)
        (Event.writeWaiterMailbox { reqType := ReqKind.FOODREQ, reqGroup := g }) ∧
    precedesIn (orderFood g t)
        (Event.writeWaiterMailbox { reqType := ReqKind.FOODREQ, reqGroup := g })
        (Event.semUp Sem.waiterRequestSem) ∧
    precedesIn (orderFood g t) (Event.semUp Sem.waiterRequestSem)
        (Event.setGroupStat g GroupStatus.FOOD_REQUEST) ∧
    precedesIn (orderFood g t) (Event.setGroupStat g GroupStatus.FOOD_REQUEST)
        Event.saveState ∧
    precedesIn (orderFood g t) Event.saveState (Event.readAssignedTable g) ∧
    precedesIn (orderFood g t) (Event.readAssignedTable g) (Event.semUp Sem.mutex) ∧
    precedesIn (orderFood g t) (Event.semUp Sem.mutex)
        (Event.semDown (Sem.requestReceived t)) := by
  exact ⟨⟨[], [],
      [Event.writeWaiterMailbox { reqType := ReqKind.FOODREQ, reqGroup := g },
       Event.semUp Sem.waiterRequestSem, Event.setGroupStat g GroupStatus.FOOD_REQUEST,
       Event.saveState, Event.readAssignedTable g, Event.semUp Sem.mutex,
       Event.semDown (Sem.requestReceived t)], rfl⟩,
    ⟨[Event.semDown Sem.waiterRequestPossible], [],
      [Event.semUp Sem.waiterRequestSem, Event.setGroupStat g GroupStatus.FOOD_REQUEST,
       Event.saveState, Event.readAssignedTable g, Event.semUp Sem.mutex,
       Event.semDown (Sem.requestReceived t)], rfl⟩,
    ⟨[Event.semDown Sem.waiterRequestPossible, Event.semDown Sem.mutex], [],
      [Event.setGroupStat g GroupStatus.FOOD_REQUEST,
       Event.saveState, Event.readAssignedTable g, Event.semUp Sem.mutex,
       Event.semDown (Sem.requestReceived t)], rfl⟩,
    ⟨[Event.semDown Sem.waiterRequestPossible, Event.semDown Sem.mutex,
      Event.writeWaiterMailbox { reqType := ReqKind.FOODREQ, reqGroup := g }], [],
      [Event.saveState, Event.readAssignedTable g, Event.semUp Sem.mutex,
       Event.semDown (Sem.requestReceived t)], rfl⟩,
    ⟨[Event.semDown Sem.waiterRequestPossible, Event.semDown Sem.mutex,
      Event.writeWaiterMailbox { reqType := ReqKind.FOODREQ, reqGroup := g },
      Event.semUp Sem.waiterRequestSem], [],
      [Event.readAssignedTable g, Event.semUp Sem.mutex,
       Event.semDown (Sem.requestReceived t)], rfl⟩,
    ⟨[Event.semDown Sem.waiterRequestPossible, Event.semDown Sem.mutex,
      Event.writeWaiterMailbox { reqType := ReqKind.FOODREQ, reqGroup := g },
      Event.semUp Sem.waiterRequestSem,
      Event.setGroupStat g GroupStatus.FOOD_REQUEST], [],
      [Event.semUp Sem.mutex, Event.semDown (Sem.requestReceived t)], rfl⟩,
    ⟨[Event.semDown Sem.waiterRequestPossible, Event.semDown Sem.mutex,
      Event.writeWaiterMailbox { reqType := ReqKind.FOODREQ, reqGroup := g },
      Event.semUp Sem.waiterRequestSem,
      Event.setGroupStat g GroupStatus.FOOD_REQUEST, Event.saveState], [],
      [Event.semDown (Sem.requestReceived t)], rfl⟩,
    ⟨[Event.semDown Sem.waiterRequestPossible, Event.semDown Sem.mutex,
      Event.writeWaiterMailbox { reqType := ReqKind.FOODREQ, reqGroup := g },
      Event.semUp Sem.waiterRequestSem,
      Event.setGroupStat g GroupStatus.FOOD_REQUEST, Event.saveState,
      Event.readAssignedTable g], [], [], rfl⟩⟩

/-- C4 counterexample: the sequence of group-status writes performed over
    a group's full lifecycle (the only writes to that group's status in
    the three source files) never contains WAITING, even though the
    lifecycle claim requires WAITING to be persisted when the group must
    queue, and never contains GOING (concrete instance: group 0 at
    table 0). -/
theorem claim4_counterexample :
    GroupStatus.WAITING ∉ statusWrites (groupLifecycle 0 0) ∧
      GroupStatus.GOING ∉ statusWrites (groupLifecycle 0 0) := by decide

/-- C4 (amended): for every group, the sequence of statuses it persists
    over its full lifecycle is exactly AT_RECEPTION, FOOD_REQUEST,
    WAIT_FOR_FOOD, EAT, CHECKOUT, LEAVING, in that order with no other
    statuses interleaved; in particular WAITING is never persisted, even
    when the group must queue for a table, and GOING is only the initial
    status set by the external initializer, never written by the group. -/
theorem claim4_status_sequence (g : Nat) (t : Int) :
    statusWrites (groupLifecycle g t) =
      [GroupStatus.ATRECEPTION, GroupStatus.FOOD_REQUEST,
       GroupStatus.WAIT_FOR_FOOD, GroupStatus.EAT,
       GroupStatus.CHECKOUT, GroupStatus.LEAVING] := rfl

/-- C9 counterexample: with MAXGROUPS = 10 in a deployment of
    groupCount = 5 groups, the invalid group id 5 (outside [0, 5)) passes
    the startup validation and the process proceeds into the protocol;
    likewise the negative id -3 passes validation. -/
theorem claim9_counterexample :
    groupStartup 10 true true 5 = GroupStartup.runsProtocol 5 ∧
      ¬ ((5 : Int) < 5) ∧
      groupStartup 10 true true (-3) = GroupStartup.runsProtocol (-3) ∧
      ((-3 : Int) < 0) := by decide

/-- C9 (amended): the group process's startup validation rejects exactly
    the malformed command lines and the ids n with n ≥ MAXGROUPS (the
    compile-time bound), exiting with failure before any protocol step;
    ids in [groupCount, MAXGROUPS) and negative ids are not detected at
    startup and the process proceeds into the protocol. -/
theorem claim9_validation (maxGroups n : Int) :
    (groupStartup maxGroups true true n = GroupStartup.configError ↔ maxGroups ≤ n) ∧
      groupStartup maxGroups false true n = GroupStartup.configError ∧
      groupStartup maxGroups true false n = GroupStartup.configError := by
  refine ⟨?_, rfl, rfl⟩
  unfold groupStartup
  by_cases h : n ≥ maxGroups
  · simp [h]
  · simp [h]

/-- C2: decideTableOrWait returns the smallest table id in
    [0, tableCount) that no group's assignedTable equals, and returns -1
    exactly when every table id is equal to some group's assignedTable;
    on a TABLE_REQUEST, if the result is -1 the receptionist increments
    groupsWaiting and records the group as WAIT without signaling any
    table-assigned semaphore, otherwise it sets assignedTable[group] to
    the returned table and signals that group's table-assigned
    semaphore. -/
theorem claim2_table_policy (s : RecState) (g : Nat)
    (hlen : s.assignedTable.length = s.nGroups) :
    (decideTableOrWait s = -1 ↔
      ∀ t, t < s.numTables →
        ∃ i, i < s.nGroups ∧ s.assignedTable.getD i 0 = (t : Int)) ∧
    (0 ≤ decideTableOrWait s →
      (decideTableOrWait s).toNat < s.numTables ∧
      (∀ i, i < s.nGroups → s.assignedTable.getD i 0 ≠ decideTableOrWait s) ∧
      (∀ j, j < (decideTableOrWait s).toNat →
        ∃ i, i < s.nGroups ∧ s.assignedTable.getD i 0 = (j : Int))) ∧
    (decideTableOrWait s = -1 →
      (provideTableOrWaitingRoom s g).1 =
        { s with groupsWaiting := s.groupsWaiting + 1
                 groupRecord := s.groupRecord.set g WAIT } ∧
      (∀ g', Event.semUp (Sem.waitForTable g') ∉ (provideTableOrWaitingRoom s g).2)) ∧
    (0 ≤ decideTableOrWait s →
      (provideTableOrWaitingRoom s g).1 =
        { s with groupRecord := s.groupRecord.set g ATTABLE
                 assignedTable := s.assignedTable.set g (decideTableOrWait s) } ∧
      Event.semUp (Sem.waitForTable g) ∈ (provideTableOrWaitingRoom s g).2) := by
  refine ⟨?_, ?_, ?_, ?_⟩
  · rw [decideTableOrWait,
      scanFreeTable_neg_iff s.assignedTable s.numTables s.numTables 0 (by omega)]
    constructor
    · intro hall t ht
      exact ((any_beq_getD 0).mp (hall t (by omega) ht)).imp
        (fun i ⟨hi, hv⟩ => ⟨by omega, hv⟩)
    · intro hall t _ ht
      exact (any_beq_getD 0).mpr ((hall t ht).imp (fun i ⟨hi, hv⟩ => ⟨by omega, hv⟩))
  · intro hr
    obtain ⟨h1, h2, h3, h4⟩ := scanFreeTable_found s.assignedTable s.numTables
      s.numTables 0 (decideTableOrWait s) (by omega) rfl hr
    refine ⟨h2, ?_, ?_⟩
    · intro i hi hv
      have : s.assignedTable.any (fun a => a == decideTableOrWait s) = true :=
        (any_beq_getD 0).mpr ⟨i, by omega, hv⟩
      rw [h3] at this
      exact Bool.false_ne_true this
    · intro j hj
      exact ((any_beq_getD 0).mp (h4 j (by omega) hj)).imp
        (fun i ⟨hi, hv⟩ => ⟨by omega, hv⟩)
  · intro hneg
    rw [provideTableOrWaitingRoom]
    rw [if_pos (by rw [hneg]; norm_num)]
    refine ⟨rfl, ?_⟩
    intro g'
    simp
  · intro hr
    rw [provideTableOrWaitingRoom]
    rw [if_neg (by omega)]
    refine ⟨rfl, ?_⟩
    simp

/-- An example state for the claim witnesses: two groups, one table,
    nobody seated yet. -/
def exampleState : RecState :=
  { nGroups := 2
    numTables := 1
    assignedTable := [-1, -1]
    groupsWaiting := 0
    groupRecord := [TOARRIVE, TOARRIVE] }

/-- Witness for C2 at the concrete state exampleState and group 0. -/
theorem claim2_witness :
    exampleState.assignedTable.length = exampleState.nGroups ∧
    ((decideTableOrWait exampleState = -1 ↔
      ∀ t, t < exampleState.numTables →
        ∃ i, i < exampleState.nGroups ∧ exampleState.assignedTable.getD i 0 = (t : Int)) ∧
    (0 ≤ decideTableOrWait exampleState →
      (decideTableOrWait exampleState).toNat < exampleState.numTables ∧
      (∀ i, i < exampleState.nGroups →
        exampleState.assignedTable.getD i 0 ≠ decideTableOrWait exampleState) ∧
      (∀ j, j < (decideTableOrWait exampleState).toNat →
        ∃ i, i < exampleState.nGroups ∧ exampleState.assignedTable.getD i 0 = (j : Int))) ∧
    (decideTableOrWait exampleState = -1 →
      (provideTableOrWaitingRoom exampleState 0).1 =
        { exampleState with groupsWaiting := exampleState.groupsWaiting + 1
                            groupRecord := exampleState.groupRecord.set 0 WAIT } ∧
      (∀ g', Event.semUp (Sem.waitForTable g') ∉ (provideTableOrWaitingRoom exampleState 0).2)) ∧
    (0 ≤ decideTableOrWait exampleState →
      (provideTableOrWaitingRoom exampleState 0).1 =
        { exampleState with groupRecord := exampleState.groupRecord.set 0 ATTABLE
                            assignedTable :=
                              exampleState.assignedTable.set 0 (decideTableOrWait exampleState) } ∧
      Event.semUp (Sem.waitForTable 0) ∈ (provideTableOrWaitingRoom exampleState 0).2)) :=
  ⟨by decide, claim2_table_policy exampleState 0 (by decide)⟩

theorem getD_default_eq {α : Type} (l : List α) (i : Nat) (d1 d2 : α)
    (h : i < l.length) : l.getD i d1 = l.getD i d2 := by
  rw [List.getD_eq_getElem _ _ h, List.getD_eq_getElem _ _ h]

theorem getD_of_le {α : Type} (l : List α) (i : Nat) (d : α)
    (h : l.length ≤ i) : l.getD i d = d := by
  rw [List.getD_eq_getElem?_getD, List.getElem?_eq_none h]
  rfl

/-- Before any request of group g has been dispatched, the receptionist's
    private record of g is still TOARRIVE: a step for another group never
    touches g's record, because the reassignment in receivePayment only
    retargets a group whose record is WAIT. -/
theorem receptionistStep_keeps_toarrive (s : RecState) (r : Request) (g : Nat)
    (hne : r.reqGroup ≠ g) (hg : s.groupRecord.getD g DONE = TOARRIVE) :
    (receptionistStep s r).groupRecord.getD g DONE = TOARRIVE := by
  rcases r with ⟨ty, rg⟩
  have hne' : rg ≠ g := hne
  cases ty with
  | TABLEREQ =>
    simp only [receptionistStep]
    rw [provideTableOrWaitingRoom]
    by_cases h : decideTableOrWait s < 0
    · rw [if_pos h]
      rw [getD_set_ne WAIT DONE s.groupRecord rg g hne']
      exact hg
    · rw [if_neg h]
      rw [getD_set_ne ATTABLE DONE s.groupRecord rg g hne']
      exact hg
  | BILLREQ =>
    simp only [receptionistStep]
    rw [receivePayment]
    have hs1 : (s.groupRecord.set rg DONE).getD g DONE = TOARRIVE := by
      rw [getD_set_ne DONE DONE s.groupRecord rg g hne']
      exact hg
    by_cases hw : (0 : Int) < s.groupsWaiting
    · rw [if_pos hw]
      set s1 : RecState :=
        { s with groupRecord := s.groupRecord.set rg DONE
                 assignedTable := s.assignedTable.set rg (-1) } with hs1def
      have hs1w : s1.groupsWaiting = s.groupsWaiting := rfl
      by_cases hng : decideNextGroup s1 > -1
      · rw [if_pos hng]
        have hfound := scanWaitGroup_found s1.groupRecord s1.nGroups s1.nGroups 0
          (decideNextGroup s1) (by omega) ?_ (by omega)
        · have hne2 : (decideNextGroup s1).toNat ≠ g := by
            intro habs
            have hwait := hfound.2.2.1
            rw [habs] at hwait
            have hglen : g < s1.groupRecord.length := by
              by_contra hcon
              rw [getD_of_le s1.groupRecord g DONE (by omega)] at hs1
              exact absurd hs1 (by decide)
            rw [getD_default_eq s1.groupRecord g TOARRIVE DONE hglen] at hwait
            rw [hs1] at hwait
            exact absurd hwait (by decide)
          rw [getD_set_ne ATTABLE DONE s1.groupRecord (decideNextGroup s1).toNat g hne2]
          exact hs1
        · rw [decideNextGroup]
          rw [if_neg (by rw [hs1w]; omega)]
      · rw [if_neg hng]
        exact hs1
    · rw [if_neg hw]
      exact hs1
  | FOODREQ => exact hg
  | FOODREADY => exact hg

theorem processRequests_keeps_toarrive (g : Nat) :
    ∀ (l : List Request) (s : RecState),
      (∀ r ∈ l, r.reqGroup ≠ g) →
      s.groupRecord.getD g DONE = TOARRIVE →
      (processRequests s l).groupRecord.getD g DONE = TOARRIVE := by
  intro l
  induction l with
  | nil => intro s _ hg; exact hg
  | cons r rs ih =>
    intro s hfresh hg
    rw [processRequests]
    exact ih (receptionistStep s r)
      (fun r' hr' => hfresh r' (List.mem_cons_of_mem r hr'))
      (receptionistStep_keeps_toarrive s r g (hfresh r (List.mem_cons_self r rs)) hg)

/-- C10: whenever the receptionist dispatches a TABLE_REQUEST for group g
    under the protocol (g's table request is g's first request, so no
    earlier dispatched request carries g), the private record
    groupRecord[g] is still TOARRIVE, hence the assertion
    groupRecord[group_id] < 2 at the entry of decideTableOrWait holds. -/
theorem claim10_assert_valid (n tables : Nat) (l1 : List Request) (g : Nat)
    (hfresh : ∀ r ∈ l1, r.reqGroup ≠ g) (hg : g < n) :
    decideAssertOk (processRequests (initState n tables) l1) g := by
  have hinit : (initState n tables).groupRecord.getD g DONE = TOARRIVE := by
    rw [initState]
    rw [List.getD_eq_getElem _ _ (by simpa using hg), List.getElem_replicate]
  have := processRequests_keeps_toarrive g l1 (initState n tables) hfresh hinit
  rw [decideAssertOk, this]
  decide

/-- Witness for C10: after the receptionist has served group 0's table
    request, group 1's record is still TOARRIVE and the assertion holds
    when group 1's own table request arrives. -/
theorem claim10_witness :
    (∀ r ∈ [Request.mk ReqKind.TABLEREQ 0], r.reqGroup ≠ 1) ∧ 1 < 2 ∧
      decideAssertOk
        (processRequests (initState 2 1) [Request.mk ReqKind.TABLEREQ 0]) 1 :=
  ⟨by decide, by decide,
    claim10_assert_valid 2 1 [Request.mk ReqKind.TABLEREQ 0] 1 (by decide) (by decide)⟩

/-! ## Reachability and table exclusivity -/

/-- The bookkeeping arrays have length nGroups. -/
def WfLen (s : RecState) : Prop :=
  s.assignedTable.length = s.nGroups ∧ s.groupRecord.length = s.nGroups

/-- Table exclusivity: no two distinct groups hold the same non-(-1)
    assignedTable value. -/
def Exclusive (s : RecState) : Prop :=
  ∀ i j, i < s.nGroups → j < s.nGroups → i ≠ j →
    s.assignedTable.getD i (-1) ≠ -1 →
    s.assignedTable.getD i (-1) ≠ s.assignedTable.getD j (-1)

/-- States reachable from the initial state by receptionist operations. -/
inductive Reachable (n tables : Nat) : RecState → Prop where
  | init : Reachable n tables (initState n tables)
  | tableReq (s : RecState) (g : Nat) : Reachable n tables s → g < n →
      Reachable n tables (provideTableOrWaitingRoom s g).1
  | billReq (s : RecState) (g : Nat) : Reachable n tables s → g < n →
      Reachable n tables (receivePayment s g).1

theorem provide_preserves_exclusive (s : RecState) (g : Nat)
    (hwf : WfLen s) (hex : Exclusive s) :
    WfLen (provideTableOrWaitingRoom s g).1 ∧
      Exclusive (provideTableOrWaitingRoom s g).1 := by
  obtain ⟨hla, hlr⟩ := hwf
  rw [provideTableOrWaitingRoom]
  by_cases h : decideTableOrWait s < 0
  · rw [if_pos h]
    refine ⟨⟨?_, ?_⟩, ?_⟩
    · simp only []
      exact hla
    · simp only [List.length_set]
      exact hlr
    · intro i j hi hj hij hival
      simp only [] at hi hj hival ⊢
      exact hex i j hi hj hij hival
  · rw [if_neg h]
    have hfree := scanFreeTable_found s.assignedTable s.numTables s.numTables 0
      (decideTableOrWait s) (by omega) rfl (by omega)
    have hnot : ∀ i, i < s.assignedTable.length →
        s.assignedTable.getD i (-1) ≠ decideTableOrWait s := by
      intro i hi hv
      have : s.assignedTable.any (fun a => a == decideTableOrWait s) = true :=
        (any_beq_getD (-1)).mpr ⟨i, hi, hv⟩
      rw [hfree.2.2.1] at this
      exact Bool.false_ne_true this
    refine ⟨⟨?_, ?_⟩, ?_⟩
    · simp only [List.length_set]
      exact hla
    · simp only [List.length_set]
      exact hlr
    · intro i j hi hj hij hival
      simp only [] at hi hj hival ⊢
      by_cases hig : i = g
      · subst hig
        have hgl : i < s.assignedTable.length := by omega
        rw [getD_set_self (decideTableOrWait s) (-1) s.assignedTable i hgl] at hival ⊢
        rw [getD_set_ne (decideTableOrWait s) (-1) s.assignedTable i j hij]
        intro habs
        exact hnot j (by omega) habs.symm
      · rw [getD_set_ne (decideTableOrWait s) (-1) s.assignedTable g i
          (fun e => hig e.symm)] at hival ⊢
        by_cases hjg : j = g
        · subst hjg
          have hjl : j < s.assignedTable.length := by omega
          rw [getD_set_self (decideTableOrWait s) (-1) s.assignedTable j hjl]
          intro habs
          exact hnot i (by omega) habs
        · rw [getD_set_ne (decideTableOrWait s) (-1) s.assignedTable g j
            (fun e => hjg e.symm)]
          exact hex i j hi hj hij hival

theorem receive_preserves_exclusive (s : RecState) (g : Nat)
    (hwf : WfLen s) (hex : Exclusive s) :
    WfLen (receivePayment s g).1 ∧ Exclusive (receivePayment s g).1 := by
  obtain ⟨hla, hlr⟩ := hwf
  have hex1 : ∀ i j, i < s.nGroups → j < s.nGroups → i ≠ j →
      (s.assignedTable.set g (-1)).getD i (-1) ≠ -1 →
      (s.assignedTable.set g (-1)).getD i (-1) ≠
        (s.assignedTable.set g (-1)).getD j (-1) := by
    intro i j hi hj hij hival
    by_cases hig : i = g
    · subst hig
      by_cases hgl : i < s.assignedTable.length
      · rw [getD_set_self (-1) (-1) s.assignedTable i hgl] at hival
        exact absurd rfl hival
      · rw [List.set_eq_of_length_le (by omega)] at hival ⊢
        exact hex i j hi hj hij hival
    · rw [getD_set_ne (-1) (-1) s.assignedTable g i (fun e => hig e.symm)] at hival ⊢
      by_cases hjg : j = g
      · subst hjg
        by_cases hjl : j < s.assignedTable.length
        · rw [getD_set_self (-1) (-1) s.assignedTable j hjl]
          exact hival
        · rw [List.set_eq_of_length_le (by omega)]
          exact hex i j hi hj hij hival
      · rw [getD_set_ne (-1) (-1) s.assignedTable g j (fun e => hjg e.symm)]
        exact hex i j hi hj hij hival
  rw [receivePayment]
  set s1 : RecState :=
    { s with groupRecord := s.groupRecord.set g DONE
             assignedTable := s.assignedTable.set g (-1) } with hs1def
  have hs1n : s1.nGroups = s.nGroups := rfl
  have hs1a : s1.assignedTable = s.assignedTable.set g (-1) := rfl
  have hs1r : s1.groupRecord = s.groupRecord.set g DONE := rfl
  have hs1w : s1.groupsWaiting = s.groupsWaiting := rfl
  have hwf1 : WfLen s1 := by
    refine ⟨?_, ?_⟩
    · rw [hs1a, hs1n, List.length_set]
      exact hla
    · rw [hs1r, hs1n, List.length_set]
      exact hlr
  by_cases hw : (0 : Int) < s.groupsWaiting
  · rw [if_pos hw]
    by_cases hng : decideNextGroup s1 > -1
    · rw [if_pos hng]
      have hscan : scanWaitGroup s1.groupRecord s1.nGroups 0 = decideNextGroup s1 := by
        rw [decideNextGroup, if_neg (by rw [hs1w]; omega)]
      obtain ⟨_, hg2n, hg2wait, _⟩ := scanWaitGroup_found s1.groupRecord s1.nGroups
        s1.nGroups 0 (decideNextGroup s1) (by omega) hscan (by omega)
      have hg2ne : (decideNextGroup s1).toNat ≠ g := by
        intro habs
        rw [habs, hs1r] at hg2wait
        by_cases hgl : g < s.groupRecord.length
        · rw [getD_set_self DONE TOARRIVE s.groupRecord g hgl] at hg2wait
          exact absurd hg2wait (by decide)
        · rw [List.set_eq_of_length_le (by omega)] at hg2wait
          rw [getD_of_le s.groupRecord g TOARRIVE (by omega)] at hg2wait
          exact absurd hg2wait (by decide)
      have hnoother : s.assignedTable.getD g (-1) ≠ -1 →
          ∀ k, k < s.nGroups → k ≠ g →
            s.assignedTable.getD k (-1) ≠ s.assignedTable.getD g (-1) := by
        intro htne k hk hkg
        by_cases hgn : g < s.nGroups
        · exact fun habs =>
            hex k g hk hgn hkg (by rw [habs]; exact htne) habs
        · rw [getD_of_le s.assignedTable g (-1) (by omega)] at htne
          exact absurd rfl htne
      refine ⟨⟨?_, ?_⟩, ?_⟩
      · simp only [List.length_set]
        exact hla
      · simp only [List.length_set]
        exact hlr
      · intro i j hi hj hij hival
        simp only [] at hi hj hival ⊢
        by_cases hig2 : i = (decideNextGroup s1).toNat
        · rw [hig2] at hival hij ⊢
          have hil : (decideNextGroup s1).toNat < (s.assignedTable.set g (-1)).length := by
            rw [List.length_set]; omega
          rw [getD_set_self (s.assignedTable.getD g (-1)) (-1) _
            (decideNextGroup s1).toNat hil] at hival ⊢
          rw [getD_set_ne (s.assignedTable.getD g (-1)) (-1) _
            (decideNextGroup s1).toNat j hij]
          by_cases hjg : j = g
          · rw [hjg]
            rw [getD_set_self (-1) (-1) s.assignedTable g (by omega)]
            exact hival
          · rw [getD_set_ne (-1) (-1) s.assignedTable g j (fun e => hjg e.symm)]
            intro habs
            exact hnoother hival j (by omega) hjg habs.symm
        · rw [getD_set_ne (s.assignedTable.getD g (-1)) (-1) _
            (decideNextGroup s1).toNat i (fun e => hig2 e.symm)] at hival ⊢
          by_cases hjg2 : j = (decideNextGroup s1).toNat
          · rw [hjg2]
            have hjl : (decideNextGroup s1).toNat < (s.assignedTable.set g (-1)).length := by
              rw [List.length_set]; omega
            rw [getD_set_self (s.assignedTable.getD g (-1)) (-1) _
              (decideNextGroup s1).toNat hjl]
            by_cases hig : i = g
            · rw [hig] at hival
              rw [getD_set_self (-1) (-1) s.assignedTable g (by omega)] at hival
              exact absurd rfl hival
            · rw [getD_set_ne (-1) (-1) s.assignedTable g i
                (fun e => hig e.symm)] at hival ⊢
              intro habs
              have htne : s.assignedTable.getD g (-1) ≠ -1 := by
                rw [← habs]; exact hival
              exact hnoother htne i (by omega) hig habs
          · rw [getD_set_ne (s.assignedTable.getD g (-1)) (-1) _
              (decideNextGroup s1).toNat j (fun e => hjg2 e.symm)]
            exact hex1 i j hi hj hij hival
    · rw [if_neg hng]
      refine ⟨hwf1, ?_⟩
      intro i j hi hj hij hival
      simp only [] at hi hj hival ⊢
      exact hex1 i j hi hj hij hival
  · rw [if_neg hw]
    refine ⟨hwf1, ?_⟩
    intro i j hi hj hij hival
    simp only [] at hi hj hival ⊢
    exact hex1 i j hi hj hij hival

theorem reachable_exclusive (n tables : Nat) :
    ∀ s, Reachable n tables s → WfLen s ∧ Exclusive s := by
  intro s h
  induction h with
  | init =>
    refine ⟨⟨by simp [initState], by simp [initState]⟩, ?_⟩
    intro i j hi hj hij hival
    exfalso
    apply hival
    rw [initState]
    rcases Nat.lt_or_ge i n with hlt | hge
    · rw [List.getD_eq_getElem _ _ (by simpa using hlt), List.getElem_replicate]
    · exact getD_of_le _ _ _ (by simpa using hge)
  | tableReq s g _ hg ih => exact provide_preserves_exclusive s g ih.1 ih.2
  | billReq s g _ hg ih => exact receive_preserves_exclusive s g ih.1 ih.2

/-- C1: table exclusivity.  In every state reachable by receptionist
    operations from the initial state, no two distinct groups have the
    same non-(-1) value in assignedTable; in particular both
    provideTableOrWaitingRoom and receivePayment preserve the invariant
    that a table is held by at most one group at a time. -/
theorem claim1_table_exclusivity (n tables : Nat) (s : RecState)
    (h : Reachable n tables s) : Exclusive s :=
  (reachable_exclusive n tables s h).2

/-- Witness for C1: the state reached by seating group 0 from the initial
    two-group one-table state is reachable and exclusive. -/
theorem claim1_witness :
    Reachable 2 1 (provideTableOrWaitingRoom (initState 2 1) 0).1 ∧
      Exclusive (provideTableOrWaitingRoom (initState 2 1) 0).1 :=
  ⟨Reachable.tableReq (initState 2 1) 0 Reachable.init (by decide),
   claim1_table_exclusivity 2 1 _
     (Reachable.tableReq (initState 2 1) 0 Reachable.init (by decide))⟩

/-! ## The waiting-count invariant -/

/-- groupsWaiting equals the number of groupRecord entries equal to
    WAIT. -/
def CountInv (s : RecState) : Prop :=
  s.groupsWaiting = (s.groupRecord.countP (fun r => r == WAIT) : Int)

/-- C5: outside the receptionist's critical sections groupsWaiting equals
    the number of WAIT entries of groupRecord, and both
    provideTableOrWaitingRoom (which increments groupsWaiting exactly
    when it marks a record WAIT) and receivePayment (which decrements it
    exactly when it moves a WAIT record to AT_TABLE) preserve this
    equality.  The hypotheses record the protocol context of a dispatch:
    the requesting group is a real group and its record is not WAIT when
    its request is served (TOARRIVE at a TABLE_REQUEST, AT_TABLE at a
    BILL_REQUEST). -/
theorem claim5_waiting_count (s : RecState) (g : Nat)
    (hwf : WfLen s) (hg : g < s.nGroups)
    (hnw : s.groupRecord.getD g TOARRIVE ≠ WAIT)
    (hinv : CountInv s) :
    CountInv (provideTableOrWaitingRoom s g).1 ∧
      CountInv (receivePayment s g).1 := by
  obtain ⟨hla, hlr⟩ := hwf
  have hinv2 : s.groupsWaiting =
      (s.groupRecord.countP (fun r => r == WAIT) : Int) := hinv
  have hglen : g < s.groupRecord.length := by omega
  have hpold : ((s.groupRecord.getD g TOARRIVE == WAIT) : Bool) = false :=
    Bool.eq_false_iff.mpr (fun hx => hnw (by simpa using hx))
  constructor
  · rw [provideTableOrWaitingRoom]
    by_cases h : decideTableOrWait s < 0
    · rw [if_pos h]
      have hcnt := countP_set_add (fun r => r == WAIT) WAIT TOARRIVE
        s.groupRecord g hglen
      simp only [] at hcnt
      rw [if_beq_false hpold, if_beq_true (by decide)] at hcnt
      show s.groupsWaiting + 1 =
        ((s.groupRecord.set g WAIT).countP (fun r => r == WAIT) : Int)
      omega
    · rw [if_neg h]
      have hcnt := countP_set_add (fun r => r == WAIT) ATTABLE TOARRIVE
        s.groupRecord g hglen
      simp only [] at hcnt
      rw [if_beq_false hpold, if_beq_false (by decide)] at hcnt
      show s.groupsWaiting =
        ((s.groupRecord.set g ATTABLE).countP (fun r => r == WAIT) : Int)
      omega
  · rw [receivePayment]
    set s1 : RecState :=
      { s with groupRecord := s.groupRecord.set g DONE
               assignedTable := s.assignedTable.set g (-1) } with hs1def
    have hs1n : s1.nGroups = s.nGroups := rfl
    have hs1r : s1.groupRecord = s.groupRecord.set g DONE := rfl
    have hs1w : s1.groupsWaiting = s.groupsWaiting := rfl
    have hcnt1 : (s.groupRecord.set g DONE).countP (fun r => r == WAIT) =
        s.groupRecord.countP (fun r => r == WAIT) := by
      have hcnt := countP_set_add (fun r => r == WAIT) DONE TOARRIVE
        s.groupRecord g hglen
      simp only [] at hcnt
      rw [if_beq_false hpold, if_beq_false (by decide)] at hcnt
      omega
    by_cases hw : (0 : Int) < s.groupsWaiting
    · rw [if_pos hw]
      by_cases hng : decideNextGroup s1 > -1
      · rw [if_pos hng]
        have hscan : scanWaitGroup s1.groupRecord s1.nGroups 0 = decideNextGroup s1 := by
          rw [decideNextGroup, if_neg (by rw [hs1w]; omega)]
        obtain ⟨_, hg2n, hg2wait, _⟩ := scanWaitGroup_found s1.groupRecord s1.nGroups
          s1.nGroups 0 (decideNextGroup s1) (by omega) hscan (by omega)
        rw [hs1r] at hg2wait
        rw [hs1n] at hg2n
        have hg2len : (decideNextGroup s1).toNat < (s.groupRecord.set g DONE).length := by
          rw [List.length_set]
          omega
        have hcnt2 := countP_set_add (fun r => r == WAIT) ATTABLE TOARRIVE
          (s.groupRecord.set g DONE) (decideNextGroup s1).toNat hg2len
        simp only [] at hcnt2
        rw [hg2wait] at hcnt2
        rw [if_beq_true (by decide), if_beq_false (by decide)] at hcnt2
        rw [hcnt1] at hcnt2
        show s.groupsWaiting - 1 =
          (((s.groupRecord.set g DONE).set (decideNextGroup s1).toNat ATTABLE).countP
            (fun r => r == WAIT) : Int)
        omega
      · exfalso
        have hpos : 0 < s.groupRecord.countP (fun r => r == WAIT) := by omega
        obtain ⟨i, hilen, hwait⟩ := countP_pos_getD (fun r => r == WAIT)
          TOARRIVE s.groupRecord hpos
        have heq : decideNextGroup s1 = scanWaitGroup s1.groupRecord s1.nGroups 0 := by
          rw [decideNextGroup, if_neg (by rw [hs1w]; omega)]
        have hge := scanWaitGroup_ge_neg s1.groupRecord s1.nGroups s1.nGroups 0 (by omega)
        have hneg : scanWaitGroup s1.groupRecord s1.nGroups 0 = -1 := by omega
        rw [scanWaitGroup_neg_iff s1.groupRecord s1.nGroups s1.nGroups 0
          (by omega)] at hneg
        by_cases hi : i = g
        · rw [hi, hpold] at hwait
          exact Bool.false_ne_true hwait
        · have hnone : s1.groupRecord.getD i TOARRIVE ≠ WAIT := by
            apply hneg i (by omega)
            rw [hs1n]
            omega
          rw [hs1r, getD_set_ne DONE TOARRIVE s.groupRecord g i
            (fun e => hi e.symm)] at hnone
          exact hnone (by simpa using hwait)
    · rw [if_neg hw]
      show s.groupsWaiting =
        ((s.groupRecord.set g DONE).countP (fun r => r == WAIT) : Int)
      rw [hcnt1]
      exact hinv2

/-- Witness for C5 at the example state with group 0. -/
theorem claim5_witness :
    WfLen exampleState ∧ 0 < exampleState.nGroups ∧
    exampleState.groupRecord.getD 0 TOARRIVE ≠ WAIT ∧
    CountInv exampleState ∧
    (CountInv (provideTableOrWaitingRoom exampleState 0).1 ∧
      CountInv (receivePayment exampleState 0).1) :=
  ⟨⟨by decide, by decide⟩, by decide, by decide, rfl,
    claim5_waiting_count exampleState 0 ⟨by decide, by decide⟩ (by decide)
      (by decide) rfl⟩

/-! ## Payment reassignment -/

/-- The state part of receivePayment before the reassignment decision:
    the paying group's record marked DONE and its assignedTable entry
    cleared (semSharedMemReceptionist.c lines 311-315). -/
def payIntermediate (s : RecState) (g : Nat) : RecState :=
  { s with groupRecord := s.groupRecord.set g DONE
           assignedTable := s.assignedTable.set g (-1) }

/-- C3: on a BILL_REQUEST from group g (a real group whose record is not
    WAIT, as the protocol guarantees at checkout), the receptionist
    records g as DONE, captures t = assignedTable[g], clears
    assignedTable[g]; since groupsWaiting > 0 (and the waiting count
    matches the WAIT records), decideNextGroup selects the lowest-id
    group whose record is WAIT, which is marked AT_TABLE, assigned the
    vacated table t, and signalled on its table-assigned semaphore before
    the lock release, while groupsWaiting is decremented; the vacating
    group's checkout-done semaphore for table t is signaled after the
    state lock is released. -/
theorem claim3_payment_reassignment (s : RecState) (g : Nat)
    (hwf : WfLen s) (hg : g < s.nGroups)
    (hnw : s.groupRecord.getD g TOARRIVE ≠ WAIT)
    (hw : 0 < s.groupsWaiting) (hinv : CountInv s) :
    0 ≤ decideNextGroup (payIntermediate s g) ∧
    ((s.groupRecord.set g DONE).getD
        (decideNextGroup (payIntermediate s g)).toNat TOARRIVE = WAIT ∧
      ∀ j, j < (decideNextGroup (payIntermediate s g)).toNat →
        (s.groupRecord.set g DONE).getD j TOARRIVE ≠ WAIT) ∧
    (receivePayment s g).1.groupRecord.getD g DONE = DONE ∧
    (receivePayment s g).1.assignedTable.getD g (-1) = -1 ∧
    (receivePayment s g).1.groupRecord.getD
      (decideNextGroup (payIntermediate s g)).toNat TOARRIVE = ATTABLE ∧
    (receivePayment s g).1.assignedTable.getD
      (decideNextGroup (payIntermediate s g)).toNat (-1) =
        s.assignedTable.getD g (-1) ∧
    (receivePayment s g).1.groupsWaiting = s.groupsWaiting - 1 ∧
    precedesIn (receivePayment s g).2
      (Event.semUp (Sem.waitForTable (decideNextGroup (payIntermediate s g)).toNat))
      (Event.semUp Sem.mutex) ∧
    precedesIn (receivePayment s g).2 (Event.semUp Sem.mutex)
      (Event.semUp (Sem.tableDone (s.assignedTable.getD g (-1)))) := by
  obtain ⟨hla, hlr⟩ := hwf
  have hinv2 : s.groupsWaiting =
      (s.groupRecord.countP (fun r => r == WAIT) : Int) := hinv
  have hglen : g < s.groupRecord.length := by omega
  have hpold : ((s.groupRecord.getD g TOARRIVE == WAIT) : Bool) = false :=
    Bool.eq_false_iff.mpr (fun hx => hnw (by simpa using hx))
  have hcnt1 : (s.groupRecord.set g DONE).countP (fun r => r == WAIT) =
      s.groupRecord.countP (fun r => r == WAIT) := by
    have hcnt := countP_set_add (fun r => r == WAIT) DONE TOARRIVE
      s.groupRecord g hglen
    simp only [] at hcnt
    rw [if_beq_false hpold, if_beq_false (by decide)] at hcnt
    omega
  have hpn : (payIntermediate s g).nGroups = s.nGroups := rfl
  have hpr : (payIntermediate s g).groupRecord = s.groupRecord.set g DONE := rfl
  have hpw : (payIntermediate s g).groupsWaiting = s.groupsWaiting := rfl
  have hpos : 0 < (s.groupRecord.set g DONE).countP (fun r => r == WAIT) := by
    rw [hcnt1]
    omega
  obtain ⟨i, hilen, hwait⟩ := countP_pos_getD (fun r => r == WAIT)
    TOARRIVE (s.groupRecord.set g DONE) hpos
  rw [List.length_set] at hilen
  have hscan : scanWaitGroup (payIntermediate s g).groupRecord
      (payIntermediate s g).nGroups 0 = decideNextGroup (payIntermediate s g) := by
    rw [decideNextGroup, if_neg (by rw [hpw]; omega)]
  have hng : 0 ≤ decideNextGroup (payIntermediate s g) := by
    by_contra hcon
    have hge := scanWaitGroup_ge_neg (payIntermediate s g).groupRecord
      (payIntermediate s g).nGroups (payIntermediate s g).nGroups 0 (by omega)
    have hneg : scanWaitGroup (payIntermediate s g).groupRecord
        (payIntermediate s g).nGroups 0 = -1 := by omega
    rw [scanWaitGroup_neg_iff (payIntermediate s g).groupRecord
      (payIntermediate s g).nGroups (payIntermediate s g).nGroups 0 (by omega)] at hneg
    have := hneg i (by omega) (by rw [hpn]; omega)
    rw [hpr] at this
    exact this (by simpa using hwait)
  obtain ⟨_, hg2n, hg2wait, hg2min⟩ := scanWaitGroup_found
    (payIntermediate s g).groupRecord (payIntermediate s g).nGroups
    (payIntermediate s g).nGroups 0 (decideNextGroup (payIntermediate s g))
    (by omega) hscan hng
  rw [hpn] at hg2n
  rw [hpr] at hg2wait hg2min
  have hg2ne : (decideNextGroup (payIntermediate s g)).toNat ≠ g := by
    intro habs
    rw [habs] at hg2wait
    rw [getD_set_self DONE TOARRIVE s.groupRecord g hglen] at hg2wait
    exact absurd hg2wait (by decide)
  refine ⟨hng, ⟨hg2wait, fun j hj => hg2min j (by omega) hj⟩, ?_⟩
  have hngL : decideNextGroup
      ({ s with groupRecord := s.groupRecord.set g DONE
                assignedTable := s.assignedTable.set g (-1) } : RecState) > -1 := by
    show decideNextGroup (payIntermediate s g) > -1
    omega
  have hpa : (payIntermediate s g).assignedTable = s.assignedTable.set g (-1) := rfl
  have hres : receivePayment s g =
      ({ payIntermediate s g with
          groupRecord := (payIntermediate s g).groupRecord.set
            (decideNextGroup (payIntermediate s g)).toNat ATTABLE
          groupsWaiting := (payIntermediate s g).groupsWaiting - 1
          assignedTable := (payIntermediate s g).assignedTable.set
            (decideNextGroup (payIntermediate s g)).toNat
            (s.assignedTable.getD g (-1)) },
       [Event.semDown Sem.mutex,
        Event.setRecepStat ReceptionistStatus.RECVPAY,
        Event.saveState,
        Event.setGroupRecord g DONE,
        Event.readAssignedTable g,
        Event.setAssignedTable g (-1),
        Event.setGroupRecord (decideNextGroup (payIntermediate s g)).toNat ATTABLE,
        Event.semUp (Sem.waitForTable (decideNextGroup (payIntermediate s g)).toNat),
        Event.decGroupsWaiting,
        Event.setAssignedTable (decideNextGroup (payIntermediate s g)).toNat
          (s.assignedTable.getD g (-1)),
        Event.semUp Sem.mutex,
        Event.semUp (Sem.tableDone (s.assignedTable.getD g (-1)))]) := by
    rw [receivePayment]
    rw [if_pos (show (0 : Int) < s.groupsWaiting from hw)]
    rw [if_pos hngL]
    rfl
  rw [hres]
  refine ⟨?_, ?_, ?_, ?_, rfl, ?_, ?_⟩
  · simp only []
    rw [hpr]
    rw [getD_set_ne ATTABLE DONE (s.groupRecord.set g DONE)
      (decideNextGroup (payIntermediate s g)).toNat g hg2ne]
    exact getD_set_self DONE DONE s.groupRecord g hglen
  · simp only []
    rw [hpa]
    rw [getD_set_ne (s.assignedTable.getD g (-1)) (-1) (s.assignedTable.set g (-1))
      (decideNextGroup (payIntermediate s g)).toNat g hg2ne]
    exact getD_set_self (-1) (-1) s.assignedTable g (by omega)
  · simp only []
    rw [hpr]
    exact getD_set_self ATTABLE TOARRIVE (s.groupRecord.set g DONE)
      (decideNextGroup (payIntermediate s g)).toNat (by rw [List.length_set]; omega)
  · simp only []
    rw [hpa]
    exact getD_set_self (s.assignedTable.getD g (-1)) (-1) (s.assignedTable.set g (-1))
      (decideNextGroup (payIntermediate s g)).toNat (by rw [List.length_set]; omega)
  · exact ⟨[Event.semDown Sem.mutex,
      Event.setRecepStat ReceptionistStatus.RECVPAY,
      Event.saveState,
      Event.setGroupRecord g DONE,
      Event.readAssignedTable g,
      Event.setAssignedTable g (-1),
      Event.setGroupRecord (decideNextGroup (payIntermediate s g)).toNat ATTABLE],
     [Event.decGroupsWaiting,
      Event.setAssignedTable (decideNextGroup (payIntermediate s g)).toNat
        (s.assignedTable.getD g (-1))],
     [Event.semUp (Sem.tableDone (s.assignedTable.getD g (-1)))], rfl⟩
  · exact ⟨[Event.semDown Sem.mutex,
      Event.setRecepStat ReceptionistStatus.RECVPAY,
      Event.saveState,
      Event.setGroupRecord g DONE,
      Event.readAssignedTable g,
      Event.setAssignedTable g (-1),
      Event.setGroupRecord (decideNextGroup (payIntermediate s g)).toNat ATTABLE,
      Event.semUp (Sem.waitForTable (decideNextGroup (payIntermediate s g)).toNat),
      Event.decGroupsWaiting,
      Event.setAssignedTable (decideNextGroup (payIntermediate s g)).toNat
        (s.assignedTable.getD g (-1))],
     [], [], rfl⟩

/-- A second example state: group 0 seated at table 0, group 1 waiting. -/
def exampleState2 : RecState :=
  { nGroups := 2
    numTables := 1
    assignedTable := [0, -1]
    groupsWaiting := 1
    groupRecord := [ATTABLE, WAIT] }

/-- Witness for C3 at exampleState2 with paying group 0. -/
theorem claim3_witness :
    WfLen exampleState2 ∧ 0 < exampleState2.nGroups ∧
    exampleState2.groupRecord.getD 0 TOARRIVE ≠ WAIT ∧
    0 < exampleState2.groupsWaiting ∧ CountInv exampleState2 ∧
    (0 ≤ decideNextGroup (payIntermediate exampleState2 0) ∧
    ((exampleState2.groupRecord.set 0 DONE).getD
        (decideNextGroup (payIntermediate exampleState2 0)).toNat TOARRIVE = WAIT ∧
      ∀ j, j < (decideNextGroup (payIntermediate exampleState2 0)).toNat →
        (exampleState2.groupRecord.set 0 DONE).getD j TOARRIVE ≠ WAIT) ∧
    (receivePayment exampleState2 0).1.groupRecord.getD 0 DONE = DONE ∧
    (receivePayment exampleState2 0).1.assignedTable.getD 0 (-1) = -1 ∧
    (receivePayment exampleState2 0).1.groupRecord.getD
      (decideNextGroup (payIntermediate exampleState2 0)).toNat TOARRIVE = ATTABLE ∧
    (receivePayment exampleState2 0).1.assignedTable.getD
      (decideNextGroup (payIntermediate exampleState2 0)).toNat (-1) =
        exampleState2.assignedTable.getD 0 (-1) ∧
    (receivePayment exampleState2 0).1.groupsWaiting =
      exampleState2.groupsWaiting - 1 ∧
    precedesIn (receivePayment exampleState2 0).2
      (Event.semUp (Sem.waitForTable
        (decideNextGroup (payIntermediate exampleState2 0)).toNat))
      (Event.semUp Sem.mutex) ∧
    precedesIn (receivePayment exampleState2 0).2 (Event.semUp Sem.mutex)
      (Event.semUp (Sem.tableDone (exampleState2.assignedTable.getD 0 (-1))))) :=
  ⟨⟨by decide, by decide⟩, by decide, by decide, by decide, rfl,
    claim3_payment_reassignment exampleState2 0 ⟨by decide, by decide⟩
      (by decide) (by decide) (by decide) rfl⟩

end Restaurant
